import Mathlib

/-!
# Verification of the news-aggregator backend

A shallow embedding, in Lean 4, of the parts of `backend/main.py` and
`backend/db.py` that the specification's claims are about: the clustering
signature and deduplicator, the sliding-window rate limiter, the enrichment
freshness predicate, the in-memory response cache, the topic classifier's
scoring fallback, the worker-side enrichment step, and the `/news` query
post-processing.

Conventions used throughout:
* Python dicts with a fixed key set become Lean structures; a missing or
  `None` string-valued key is modelled as `""` (both are falsy in the
  Python code, which only ever tests truthiness of these fields).
* Wall-clock readings (`time.time()`, datetimes) are modelled as rationals;
  `int(x)` truncation composed with the code's clamp-to-zero is modelled by
  `Int.floor` composed with the same clamp (the two agree after clamping).
* Python float scores in the topic classifier are modelled in exact
  twentieths: every table weight and threshold is a multiple of 0.05, so
  scaling by 20 gives integers (4.0 becomes 80, the -999.0 sentinel
  becomes -19980), and every comparison is preserved exactly.
* Python dicts used as insertion-ordered maps become association lists that
  preserve insertion order, exactly as `dict` does.
-/

namespace NewsAgg

/-- An article dict as built by `_build_article` / enriched by
`_get_cached_enrich`, with the derived fields (`duplicates_count`,
`topic`, `cluster_id`, `rank_score`) attached later in the pipeline. -/
structure Article where
  title : String := ""
  link : String := ""
  source : String := ""
  country_key : String := ""
  published_utc : Option String := none
  snippet_text : String := ""
  title_en : String := ""
  summary_en : String := ""
  has_cached_summary : Bool := false
  source_categories : List String := []
  duplicates_count : Option Nat := none
  topic : String := ""
  cluster_id : String := ""
  rank_score : ℚ := 0
deriving DecidableEq, Repr

/-- Python `\s` on the ASCII range: the whitespace characters `str.strip`
and `re` treat as spaces in this pipeline. -/
def isPySpace (c : Char) : Bool :=
  c = ' ' ∨ c = '\t' ∨ c = '\n' ∨ c = '\r' ∨ c = '\x0b' ∨ c = '\x0c'

/-- Python `str.strip()` on a character list. -/
def pyStrip (l : List Char) : List Char :=
  ((l.dropWhile isPySpace).reverse.dropWhile isPySpace).reverse

/-- `str.strip()` on strings. -/
def pyStripStr (s : String) : String := ⟨pyStrip s.data⟩

/-- Python `re.sub(r"\s+", " ", ·)`: collapse every maximal whitespace run
to a single space (a whitespace character is dropped when followed by more
whitespace, and becomes a single `' '` at the end of its run). -/
def collapseWs : List Char → List Char
  | [] => []
  | c :: rest =>
    if isPySpace c then
      match rest with
      | [] => [' ']
      | d :: _ => if isPySpace d then collapseWs rest else ' ' :: collapseWs rest
    else c :: collapseWs rest

/-- Python `str.lower()`, restricted to the ASCII letters the claims
exercise (accented lowercase letters are already lowercase). -/
def pyLowerChars (l : List Char) : List Char := l.map Char.toLower

/-- `str.lower()` on strings. -/
def pyLower (s : String) : String := ⟨pyLowerChars s.data⟩

/-- The character class kept by `_NON_WORD = re.compile(r"[^a-z0-9\s]")`:
anything else is replaced by a space. -/
def isTitleKeep (c : Char) : Bool :=
  ('a' ≤ c ∧ c ≤ 'z') ∨ ('0' ≤ c ∧ c ≤ '9') ∨ isPySpace c

/-- `_norm_title`: strip, lowercase, replace every character outside
`[a-z0-9\s]` by a space, collapse whitespace, strip again. -/
def norm_title (s : String) : String :=
  let t := pyLowerChars (pyStrip s.data)
  let t := t.map (fun c => if isTitleKeep c then c else ' ')
  ⟨pyStrip (collapseWs t)⟩

/-- Validity of the time part of the UTC ISO-8601 strings the pipeline
produces (`datetime(..., tzinfo=utc).isoformat()`): either nothing after
the date, or `THH:MM:SS` optionally followed by the `+00:00` offset.
Models the `datetime.fromisoformat` acceptance on that subset. -/
def validIsoTime : List Char → Bool
  | [] => true
  | 'T' :: h1 :: h2 :: ':' :: n1 :: n2 :: ':' :: s1 :: s2 :: rest =>
    h1.isDigit && h2.isDigit && n1.isDigit && n2.isDigit && s1.isDigit && s2.isDigit &&
    ((h1.toNat - '0'.toNat) * 10 + (h2.toNat - '0'.toNat) < 24) &&
    ((n1.toNat - '0'.toNat) * 10 + (n2.toNat - '0'.toNat) < 60) &&
    ((s1.toNat - '0'.toNat) * 10 + (s2.toNat - '0'.toNat) < 60) &&
    (rest = [] || rest = ['+', '0', '0', ':', '0', '0'])
  | _ => false

/-- `datetime.fromisoformat(s).astimezone(utc).date().isoformat()`,
modelled on the UTC-normalised ISO strings this pipeline stores in
`published_utc` (naive timestamps are treated as UTC, exactly as
`_day_bucket` does): returns the `YYYY-MM-DD` prefix when the string is a
valid date or UTC datetime, and `none` (the parse error) otherwise. -/
def parseIsoDay (cs : List Char) : Option (List Char) :=
  match cs with
  | y1 :: y2 :: y3 :: y4 :: '-' :: m1 :: m2 :: '-' :: d1 :: d2 :: rest =>
    if y1.isDigit && y2.isDigit && y3.isDigit && y4.isDigit &&
       m1.isDigit && m2.isDigit && d1.isDigit && d2.isDigit &&
       (1 ≤ (m1.toNat - '0'.toNat) * 10 + (m2.toNat - '0'.toNat)) &&
       ((m1.toNat - '0'.toNat) * 10 + (m2.toNat - '0'.toNat) ≤ 12) &&
       (1 ≤ (d1.toNat - '0'.toNat) * 10 + (d2.toNat - '0'.toNat)) &&
       ((d1.toNat - '0'.toNat) * 10 + (d2.toNat - '0'.toNat) ≤ 31) &&
       validIsoTime rest then
      some [y1, y2, y3, y4, '-', m1, m2, '-', d1, d2]
    else none
  | _ => none

/-- `_day_bucket`: UTC-day bucket of the publish time, `"unknown"` when
absent or unparseable. -/
def day_bucket (published_utc : Option String) : String :=
  match published_utc with
  | none => "unknown"
  | some s =>
    if s = "" then "unknown"
    else
      match parseIsoDay s.data with
      | some d => ⟨d⟩
      | none => "unknown"

/-- `_sig`: the deterministic clustering key.  The SHA-1 hex digest of the
raw key is modelled by the raw key itself: the digest is injective on this
pipeline's inputs by the spec's collision-resistance invariant, and every
claim only ever compares signatures for (in)equality. -/
def sig (a : Article) : String :=
  let ck0 := pyLower a.country_key
  let ck := if ck0 = "" then "x" else ck0
  let day := day_bucket a.published_utc
  let nt := norm_title a.title
  ck ++ "|" ++ day ++ "|" ++ ⟨nt.data.take 180⟩

/-- The composite quality key of `_quality_score`, as a lexicographically
ordered triple `(3*has_en + 2*has_cached + has_snip, snip_len, published)`,
compared exactly as Python compares the tuple (the published timestamp is
compared as a string, i.e. code-point-lexicographically, which the
character-list lexicographic order mirrors). -/
def quality_score (a : Article) : Lex (ℕ × Lex (ℕ × List Char)) :=
  let has_en : ℕ := if a.title_en ≠ "" ∧ a.summary_en ≠ "" then 1 else 0
  let has_cached : ℕ := if a.has_cached_summary then 1 else 0
  let snip_len := (pyStrip a.snippet_text.data).length
  let has_snip : ℕ := if 60 ≤ snip_len then 1 else 0
  let pu := (a.published_utc.getD "").data
  toLex (has_en * 3 + has_cached * 2 + has_snip, toLex (snip_len, pu))

/-- One step of `_dedupe`'s loop body: record the article under its
signature, replacing the current best of that group only on a strictly
greater quality key (insertion order of first-seen signatures is kept,
exactly as a Python dict does). -/
def insertBest (acc : List (String × Article)) (s : String) (a : Article) :
    List (String × Article) :=
  match acc with
  | [] => [(s, a)]
  | (k, b) :: rest =>
    if k = s then
      (if quality_score b < quality_score a then (k, a) else (k, b)) :: rest
    else (k, b) :: insertBest rest s a

/-- The fold of `_dedupe` over the input articles. -/
def dedupeAux (acc : List (String × Article)) : List Article → List (String × Article)
  | [] => acc
  | a :: rest => dedupeAux (insertBest acc (sig a) a) rest

/-- `counts[s]` of `_dedupe`: how many input articles share signature `s`. -/
def countSig (xs : List Article) (s : String) : ℕ :=
  (xs.filter (fun a => sig a = s)).length

/-- `_dedupe`: one representative per signature group, best quality wins,
first seen wins ties; representatives of groups of size `> 1` gain
`duplicates_count` equal to the group size. -/
def dedupe (xs : List Article) : List Article :=
  (dedupeAux [] xs).map (fun p =>
    if 1 < countSig xs (sig p.2) then
      { p.2 with duplicates_count := some (countSig xs (sig p.2)) }
    else p.2)

/-! ## Rate limiter (`_rate_limit_check`) -/

/-- The limiter's configuration, read from the environment on each check:
`ENRICH_RATE_LIMIT_ENABLED`, `ENRICH_RPM`, `ENRICH_WINDOW_S`. -/
structure RateConfig where
  enabled : Bool
  rpm : Int
  window_s : Int
deriving DecidableEq, Repr

/-- The `_RATE_BUCKETS` dict: per-client lists of request timestamps. -/
def RateBuckets := List (String × List ℚ)

/-- Dict lookup (`_RATE_BUCKETS.get(ip) or []`). -/
def bucketOf (st : RateBuckets) (ip : String) : List ℚ :=
  match st with
  | [] => []
  | (k, b) :: rest => if k = ip then b else bucketOf rest ip

/-- Dict store (`_RATE_BUCKETS[ip] = bucket`): replace in place, or append
a new key, exactly as a Python dict keeps insertion order. -/
def storeBucket (st : RateBuckets) (ip : String) (b : List ℚ) : RateBuckets :=
  match st with
  | [] => [(ip, b)]
  | (k, b0) :: rest => if k = ip then (k, b) :: rest else (k, b0) :: storeBucket rest ip b

/-- The effective window: `_rate_limit_check` replaces a non-positive
configured window by 60 seconds. -/
def effWindow (cfg : RateConfig) : Int :=
  if cfg.window_s ≤ 0 then 60 else cfg.window_s

/-- `_rate_limit_check` as a state transformer: returns `true` for an
admitted request (the function returning normally) and `false` for a
denied one (the raised 429), together with the bucket state afterwards. -/
def rate_limit_check (cfg : RateConfig) (st : RateBuckets) (ip : String) (now : ℚ) :
    Bool × RateBuckets :=
  if !cfg.enabled then (true, st)
  else if cfg.rpm ≤ 0 then (true, st)
  else
    let window := effWindow cfg
    let cutoff : ℚ := now - (window : ℚ)
    let bucket := (bucketOf st ip).filter (fun t => cutoff ≤ t)
    if cfg.rpm ≤ (bucket.length : Int) then (false, st)
    else (true, storeBucket st ip (bucket ++ [now]))

/-! ## Enrichment freshness (`db.is_cache_fresh`, `db.parse_iso_utc`) -/

/-- `parse_iso_utc`: `None` for an empty string, otherwise the library
parse.  `datetime.fromisoformat` plus the UTC normalisation is abstracted
as a function `fromiso` from the stored string to an absolute instant in
seconds (`none` models the parse raising). -/
def parse_iso_utc (fromiso : String → Option ℚ) (s : String) : Option ℚ :=
  if s = "" then none else fromiso s

/-- `is_cache_fresh`: a record is fresh when its timestamp parses and
`now − created ≤ ttl_seconds`. -/
def is_cache_fresh (fromiso : String → Option ℚ) (now : ℚ)
    (created_utc : String) (ttl_seconds : Int) : Bool :=
  match parse_iso_utc fromiso created_utc with
  | none => false
  | some t => now - t ≤ (ttl_seconds : ℚ)

/-! ## Worker-side enrichment (`_enrich_internal`) -/

/-- A row of the durable `enrich_cache` table. -/
structure EnrichRecord where
  title_en : String := ""
  summary_en : String := ""
  created_utc : String := ""
deriving DecidableEq, Repr

/-- The durable store as a key-value relation `link → EnrichRecord`. -/
def EnrichCache := List (String × EnrichRecord)

/-- `_get_cached_enrich`. -/
def get_cached_enrich (cache : EnrichCache) (link : String) : Option EnrichRecord :=
  match cache with
  | [] => none
  | (k, r) :: rest => if k = link then some r else get_cached_enrich rest link

/-- `_set_cached_enrich`: idempotent upsert, last writer wins. -/
def set_cached_enrich (cache : EnrichCache) (link title_en summary_en now : String) :
    EnrichCache :=
  match cache with
  | [] => [(link, ⟨title_en, summary_en, now⟩)]
  | (k, r) :: rest =>
    if k = link then (k, ⟨title_en, summary_en, now⟩) :: rest
    else (k, r) :: set_cached_enrich rest link title_en summary_en now

/-- An element of the batch handed to `_enrich_internal`. -/
structure EnrichItem where
  link : String := ""
  source : String := ""
  title : String := ""
  snippet : String := ""
deriving DecidableEq, Repr

/-- One parsed item of the translation call's JSON reply. -/
structure RespItem where
  link : String := ""
  title_en : String := ""
  summary_en : String := ""
deriving DecidableEq, Repr

/-- `_enrich_internal`.  The external translation call and the JSON parse
are abstracted into `callResult`: `none` models the call failing or its
output being unparseable (the `except` branch), `some items` models
`data["items"]`.  Returns the enriched count and the durable cache
afterwards; the Python function never raises, which the model reflects by
being total. -/
def enrich_internal (cache : EnrichCache) (now : String) (items : List EnrichItem)
    (callResult : Option (List RespItem)) : ℕ × EnrichCache :=
  if items = [] then (0, cache)
  else
    let todo := items.filter (fun it =>
      decide (pyStripStr it.link ≠ "") &&
      (match get_cached_enrich cache (pyStripStr it.link) with
       | some r => decide (r.summary_en = "")
       | none => true))
    if todo = [] then (0, cache)
    else
      match callResult with
      | none => (0, cache)
      | some respItems =>
        respItems.foldl
          (fun st obj =>
            let link := pyStripStr obj.link
            let t := pyStripStr obj.title_en
            let s := pyStripStr obj.summary_en
            if link ≠ "" ∧ t ≠ "" ∧ s ≠ "" then
              (st.1 + 1, set_cached_enrich st.2 link t s now)
            else st)
          (0, cache)

/-! ## `/news` response cache (`_news_cache_get`, `_news_cache_set`)

The Python cache stores and returns `copy.deepcopy` of payload dicts, so
mutable-instance identity matters to the claims about it.  Payload objects
are modelled by addresses into an explicit heap of payload values;
`copy.deepcopy` allocates a fresh address holding the same value. -/

/-- One entry of `_NEWS_CACHE`: insertion timestamp and (the address of)
the deep-copied payload. -/
structure NewsCacheEntry where
  ts : ℚ
  payload : ℕ
deriving DecidableEq, Repr

/-- The in-memory cache state: the heap of payload values and the
insertion-ordered `_NEWS_CACHE` dict. -/
structure NewsCacheState (V : Type) where
  heap : List V
  entries : List (String × NewsCacheEntry)

/-- `copy.deepcopy`: allocate a fresh address holding the same value. -/
def deepcopy {V : Type} [Inhabited V] (heap : List V) (a : ℕ) : List V × ℕ :=
  (heap ++ [heap.getD a default], heap.length)

/-- Dict lookup in the cache. -/
def entryOf (entries : List (String × NewsCacheEntry)) (k : String) :
    Option NewsCacheEntry :=
  match entries with
  | [] => none
  | (k0, e) :: rest => if k0 = k then some e else entryOf rest k

/-- Dict store: replace in place, append when absent (insertion order of
a Python dict). -/
def storeEntry (entries : List (String × NewsCacheEntry)) (k : String)
    (e : NewsCacheEntry) : List (String × NewsCacheEntry) :=
  match entries with
  | [] => [(k, e)]
  | (k0, e0) :: rest =>
    if k0 = k then (k0, e) :: rest else (k0, e0) :: storeEntry rest k e

/-- Dict `pop`. -/
def popEntry (entries : List (String × NewsCacheEntry)) (k : String) :
    List (String × NewsCacheEntry) :=
  entries.filter (fun p => p.1 ≠ k)

/-- The eviction pass of `_news_cache_set`: sort the entries by insertion
timestamp (Python's stable sort) and pop the oldest
`max(1, len − max_keys)` keys. -/
def evictOld (entries : List (String × NewsCacheEntry)) (maxKeys : Int) :
    List (String × NewsCacheEntry) :=
  if 0 < maxKeys ∧ maxKeys < (entries.length : Int) then
    let ranked := entries.insertionSort (fun p q => p.2.ts ≤ q.2.ts)
    let cnt := max 1 ((entries.length : Int) - maxKeys)
    let victims := (ranked.take cnt.toNat).map Prod.fst
    entries.filter (fun p => p.1 ∉ victims)
  else entries

/-- `_news_cache_set`: a no-op when the TTL is non-positive; otherwise
store a deep copy stamped `now` and evict past the capacity. -/
def news_cache_set {V : Type} [Inhabited V] (ttl maxKeys : Int)
    (st : NewsCacheState V) (k : String) (payload : ℕ) (now : ℚ) :
    NewsCacheState V :=
  if ttl ≤ 0 then st
  else
    let (heap1, a1) := deepcopy st.heap payload
    let entries1 := storeEntry st.entries k ⟨now, a1⟩
    ⟨heap1, evictOld entries1 maxKeys⟩

/-- The age computation of `_news_cache_get`: `int(now − ts)` clamped at
zero.  `int` truncates toward zero and the code clamps negatives to `0`,
which agrees with `Int.floor` followed by the same clamp. -/
def cacheAge (now ts : ℚ) : Int :=
  let age := ⌊now - ts⌋
  if age < 0 then 0 else age

/-- `_news_cache_get`: a miss when caching is disabled, the key is absent,
or the entry is older than the TTL (the stale entry is popped); on a hit,
return a deep copy of the stored payload with its age. -/
def news_cache_get {V : Type} [Inhabited V] (ttl : Int)
    (st : NewsCacheState V) (k : String) (now : ℚ) :
    Option (ℕ × Int) × NewsCacheState V :=
  if ttl ≤ 0 then (none, st)
  else
    match entryOf st.entries k with
    | none => (none, st)
    | some e =>
      let age := cacheAge now e.ts
      if ttl < age then (none, ⟨st.heap, popEntry st.entries k⟩)
      else
        let (heap1, a1) := deepcopy st.heap e.payload
        (some (a1, age), ⟨heap1, st.entries⟩)

/-! ## Topic classifier (`_topic_label` and helpers)

Float weights and thresholds are held in exact twentieths (weight 3.5
becomes the integer 70, threshold 4.0 becomes 80, the -999.0 sentinel
becomes -19980).  `unicodedata.NFKD`
followed by dropping combining marks is modelled on the Latin letters this
pipeline's feeds produce (the precomposed accented letters decompose to
their base letter); every other character is left unchanged. -/

/-- NFKD decomposition followed by removal of combining marks, restricted
to the precomposed Latin letters appearing in the feeds and rule tables. -/
def stripDiacritic (c : Char) : Char :=
  if c = 'á' ∨ c = 'à' ∨ c = 'â' ∨ c = 'ä' ∨ c = 'ã' then 'a'
  else if c = 'é' ∨ c = 'è' ∨ c = 'ê' ∨ c = 'ë' then 'e'
  else if c = 'í' ∨ c = 'ì' ∨ c = 'î' ∨ c = 'ï' then 'i'
  else if c = 'ó' ∨ c = 'ò' ∨ c = 'ô' ∨ c = 'ö' ∨ c = 'õ' then 'o'
  else if c = 'ú' ∨ c = 'ù' ∨ c = 'û' ∨ c = 'ü' then 'u'
  else if c = 'ñ' then 'n'
  else if c = 'ç' then 'c'
  else c

/-- `_norm_text_for_topic`: lowercase, strip, NFKD-fold diacritics,
collapse whitespace. -/
def norm_text_for_topic (text : String) : List Char :=
  if text = "" then []
  else
    let t := pyStrip (pyLowerChars text.data)
    let t := t.map stripDiacritic
    collapseWs t

/-- `_norm_cat`: the same normalisation applied to a declared category. -/
def norm_cat (s : String) : List Char :=
  let t := pyLowerChars (pyStrip s.data)
  let t := t.map stripDiacritic
  collapseWs t

/-- `phrase in text`: Python substring containment. -/
def containsSub (t p : List Char) : Bool :=
  (List.range (t.length + 1)).any (fun i => p.isPrefixOf (t.drop i))

/-- Python `\w` on the ASCII range relevant to the normalised texts. -/
def isWordChar (c : Char) : Bool := c.isAlphanum || c = '_'

/-- A `\b phrase \b` match of `re` starting at position `i`. -/
def wordMatchAt (t p : List Char) (i : ℕ) : Bool :=
  p.isPrefixOf (t.drop i) &&
  (i = 0 || !isWordChar (t.getD (i - 1) ' ')) &&
  (t.length ≤ i + p.length || !isWordChar (t.getD (i + p.length) ' '))

/-- `_count_phrase_hits`: substring containment (0/1) for multi-word
phrases, the number of word-boundary-delimited occurrences for single
words (`re.findall` counts exactly the boundary-matching start positions,
since such matches cannot overlap). -/
def count_phrase_hits (t : List Char) (phrase : String) : ℕ :=
  if phrase = "" then 0
  else if containsSub phrase.data [' '] then
    if containsSub t phrase.data then 1 else 0
  else ((List.range t.length).filter (fun i => wordMatchAt t phrase.data i)).length

/-- One topic's rule table: strong phrases, keywords and negative phrases
with their weights. -/
structure Rules where
  strong : List (String × Int) := []
  keywords : List (String × Int) := []
  negative : List (String × Int) := []

/-- The weighted sum of one phrase table's hits. -/
def sumHits (t : List Char) (l : List (String × Int)) : Int :=
  l.foldl (fun acc p => acc + p.2 * (count_phrase_hits t p.1 : Int)) 0

/-- The number of distinct positive phrases that matched (`matched`
entries beginning `+`). -/
def posMatches (t : List Char) (r : Rules) : ℕ :=
  (r.strong.filter (fun p => 0 < count_phrase_hits t p.1)).length +
  (r.keywords.filter (fun p => 0 < count_phrase_hits t p.1)).length

/-- `_score_category`: strong + keyword weights minus |negative| weights,
plus the corroboration bonus (+1 for ≥ 3 distinct positive matches, +1/2
for exactly 2). -/
def score_category (t : List Char) (r : Rules) : Int :=
  sumHits t r.strong + sumHits t r.keywords -
    r.negative.foldl (fun acc p => acc + |p.2| * (count_phrase_hits t p.1 : Int)) 0 +
    (if 3 ≤ posMatches t r then 20 else if posMatches t r = 2 then 10 else 0)

def GENERAL_LABEL : String := "General"
def MIN_SCORE : Int := 80
def MIN_MARGIN : Int := 25
def STRONG_WIN_SCORE : Int := 170
def SPORTS_MIN_SCORE : Int := 120

/-- `CATEGORY_RULES`, in the source's (dict-insertion) order, with every
float weight scaled by 20 into an exact integer. -/
def CATEGORY_RULES : List (String × Rules) := [
  ("Politics", {
    strong := [("presidente", 80), ("gobierno", 70), ("parlamento", 70),
      ("senado", 70), ("diputados", 70), ("ministerio", 60), ("elecciones", 80),
      ("plebiscito", 80), ("referendum", 80), ("decreto", 60), ("oposicion", 50),
      ("fiscalia", 60), ("corte", 50), ("tribunal", 50), ("justicia", 50)],
    keywords := [("partido", 30), ("campana", 30), ("coalicion", 30),
      ("intendente", 30), ("alcalde", 30), ("canciller", 30), ("ley", 30),
      ("proyecto", 20), ("plenario", 30), ("comision", 20), ("diputado", 30),
      ("senador", 30)] }),
  ("Economy", {
    strong := [("inflacion", 80), ("pib", 70), ("recesion", 80),
      ("tasa de interes", 80), ("banco central", 80), ("deuda", 60), ("fmi", 70),
      ("imf", 70), ("desempleo", 70)],
    keywords := [("crecimiento", 40), ("exportaciones", 40), ("importaciones", 40),
      ("salarios", 40), ("empleo", 40), ("impuestos", 40), ("arancel", 30),
      ("dolar", 30), ("usd", 20), ("peso", 20), ("real", 20), ("costo de vida", 50),
      ("ipc", 50), ("tarifas", 40)] }),
  ("Business", {
    strong := [("empresa", 60), ("inversion", 60), ("inversiones", 60),
      ("fusion", 70), ("fusiones", 70), ("adquisicion", 70), ("ganancias", 60),
      ("resultados", 50), ("restructuracion", 60), ("ipo", 70)],
    keywords := [("accionistas", 40), ("startup", 40), ("fintech", 50),
      ("banco", 20), ("industria", 30), ("planta", 30), ("empleador", 30),
      ("contrato", 24)] }),
  ("Markets", {
    strong := [("bolsa", 80), ("acciones", 60), ("bonos", 60), ("wall street", 80),
      ("nasdaq", 80), ("dow jones", 80), ("sp 500", 80), ("s&p 500", 80),
      ("tipo de cambio", 80)],
    keywords := [("mercados", 40), ("riesgo pais", 70), ("dolar blue", 60),
      ("cotizacion", 40), ("cotización", 40), ("bitcoin", 50), ("btc", 30),
      ("ethereum", 40), ("etf", 40)] }),
  ("World", {
    strong := [("onu", 60), ("guerra", 70), ("conflicto", 60), ("ucrania", 80),
      ("israel", 80), ("gaza", 80), ("china", 60), ("eeuu", 60),
      ("estados unidos", 60), ("union europea", 60), ("otan", 70)],
    keywords := [("diplomacia", 40), ("cumbre", 40), ("sanciones", 40),
      ("embajada", 40), ("consulado", 40)] }),
  ("Society", {
    strong := [("policia", 70), ("policía", 70), ("crimen", 70),
      ("homicidio", 80), ("asesinato", 80), ("violencia", 60), ("accidente", 60),
      ("incendio", 60), ("bomberos", 60), ("tragedia", 60), ("transito", 50),
      ("tránsito", 50)],
    keywords := [("barrio", 30), ("vecinos", 30), ("protesta", 40),
      ("manifestacion", 40), ("manifestación", 40), ("sindicato", 40), ("paro", 40),
      ("huelga", 40), ("educacion", 20), ("educación", 20)] }),
  ("Education", {
    strong := [("escuela", 70), ("liceo", 70), ("universidad", 70),
      ("udelar", 70), ("docentes", 60), ("clases", 50), ("inscripciones", 60)],
    keywords := [("alumnos", 40), ("estudiantes", 40), ("facultad", 40),
      ("beca", 40), ("examen", 40)] }),
  ("Health", {
    strong := [("vacuna", 80), ("dengue", 80), ("brote", 70), ("outbreak", 70),
      ("virus", 60), ("epidemia", 60), ("hospital", 60), ("covid", 70),
      ("gripe", 60)],
    keywords := [("salud", 40), ("medicos", 40), ("médicos", 40), ("pacientes", 40),
      ("tratamiento", 40), ("clinica", 40), ("clínica", 40)] }),
  ("Science", {
    strong := [("investigacion", 70), ("investigación", 70), ("cientific", 60),
      ("ciencia", 60), ("estudio", 50), ("laboratorio", 60)],
    keywords := [("astronomia", 60), ("astronomía", 60), ("espacio", 40),
      ("nasa", 60), ("descubrimiento", 60)] }),
  ("Technology", {
    strong := [("inteligencia artificial", 80), ("ciberseguridad", 80),
      ("data breach", 80), ("hackeo", 70), ("software", 50), ("cloud", 50)],
    keywords := [("ia", 40), ("ai", 40), ("datos", 30), ("algoritmo", 40),
      ("plataforma", 30), ("chip", 40), ("robot", 40), ("app", 40)] }),
  ("Energy", {
    strong := [("petroleo", 80), ("petróleo", 80), ("gas", 60), ("energia", 60),
      ("energía", 60), ("combustible", 60), ("ute", 70), ("ancap", 70)],
    keywords := [("renovable", 50), ("eolica", 50), ("eólica", 50),
      ("solar", 40), ("tarifa", 40)] }),
  ("Environment", {
    strong := [("clima", 60), ("sequía", 80), ("sequia", 80), ("inundacion", 80),
      ("inundación", 80), ("incendios forestales", 80), ("contaminacion", 70),
      ("contaminación", 70)],
    keywords := [("medio ambiente", 60), ("fauna", 50), ("bosque", 50),
      ("rio", 30), ("río", 30), ("agua", 30)] }),
  ("Security", {
    strong := [("narcotrafico", 80), ("narcotráfico", 80),
      ("trafico de drogas", 80), ("tráfico de drogas", 80), ("contrabando", 70),
      ("operativo", 60), ("allanamiento", 70), ("detenido", 60)],
    keywords := [("seguridad", 40), ("guardia", 40), ("carcel", 60), ("cárcel", 60),
      ("penitenciaria", 60), ("penitenciaría", 60)] }),
  ("Culture", {
    strong := [("cine", 60), ("musica", 60), ("música", 60), ("teatro", 60),
      ("festival", 60), ("literatura", 60), ("arte", 50)],
    keywords := [("museo", 40), ("exposicion", 40), ("exposición", 40),
      ("concierto", 50), ("tv", 30), ("pelicula", 40), ("película", 40)] }),
  ("Sports", {
    strong := [("futbol", 80), ("futebol", 80), ("basquet", 70), ("basket", 70),
      ("baloncesto", 70), ("tenis", 60), ("rugby", 60), ("golf", 60), ("nba", 80),
      ("nfl", 80), ("mlb", 80), ("nhl", 80), ("copa libertadores", 100),
      ("sudamericana", 80), ("eliminatorias", 80), ("gran premio", 70),
      ("formula 1", 80), ("motogp", 80), ("penarol", 70), ("peñarol", 70),
      ("nacional", 20)],
    keywords := [("partido", 20), ("liga", 20), ("copa", 20), ("torneo", 20),
      ("campeonato", 30), ("seleccion", 40), ("selecao", 40), ("gol", 40),
      ("entrenador", 40), ("jugador", 40), ("fixture", 50), ("referee", 40),
      ("coach", 40), ("player", 40)],
    negative := [("parlamento", 40), ("senado", 40), ("diputados", 40),
      ("ministerio", 40), ("banco central", 40), ("inflacion", 40), ("decreto", 40),
      ("impuestos", 40), ("fiscalia", 40), ("justicia", 40)] })]

/-- `SPORTS_ANCHORS`. -/
def SPORTS_ANCHORS : List String :=
  ["futbol", "futebol", "basquet", "basket", "baloncesto", "tenis", "rugby",
   "golf", "nba", "nfl", "mlb", "nhl", "formula 1", "motogp",
   "copa libertadores", "sudamericana", "eliminatorias", "gol", "entrenador",
   "jugador", "fixture", "penarol", "peñarol", "boca", "river", "flamengo",
   "gremio", "grêmio", "palmeiras"]

/-- `NON_SPORTS_DOMINATORS`. -/
def NON_SPORTS_DOMINATORS : List String :=
  ["presidente", "gobierno", "parlamento", "senado", "diputados", "ministerio",
   "banco central", "inflacion", "pib", "deuda", "impuestos", "decreto",
   "fiscalia", "justicia"]

/-- The tail of a `_SCORE_PATTERN` match after the leading digits: skip
whitespace, one of `-`, `–`, `:`, whitespace again, then one or two digits
followed by a word boundary. -/
def scoreSepRest (l : List Char) : Bool :=
  match l.dropWhile isPySpace with
  | c :: rest =>
    if c = '-' ∨ c = '–' ∨ c = ':' then
      match rest.dropWhile isPySpace with
      | d1 :: tail =>
        d1.isDigit &&
        (match tail with
         | [] => true
         | d2 :: tail2 =>
           if d2.isDigit then
             (match tail2 with
              | [] => true
              | e :: _ => !isWordChar e)
           else !isWordChar d2)
      | [] => false
    else false
  | [] => false

/-- A `_SCORE_PATTERN` (`\b\d{1,2}\s*[-–:]\s*\d{1,2}\b`) match starting at
position `i`: the disjunction over the one- and two-digit alternatives is
exactly the existence of a backtracking match there. -/
def scoreMatchAt (t : List Char) (i : ℕ) : Bool :=
  (i = 0 || !isWordChar (t.getD (i - 1) ' ')) &&
  (match t.drop i with
   | d1 :: rest =>
     d1.isDigit &&
     (scoreSepRest rest ||
      (match rest with
       | d2 :: rest2 => d2.isDigit && scoreSepRest rest2
       | [] => false))
   | [] => false)

/-- `bool(_SCORE_PATTERN.search(text))`. -/
def hasScorePattern (t : List Char) : Bool :=
  (List.range t.length).any (scoreMatchAt t)

/-- `any(anchor in text for anchor in SPORTS_ANCHORS) or
bool(_SCORE_PATTERN.search(text))`. -/
def hasSportsAnchor (t : List Char) : Bool :=
  SPORTS_ANCHORS.any (fun a => containsSub t a.data) || hasScorePattern t

/-- `sum(1 for d in NON_SPORTS_DOMINATORS if d in text)`. -/
def dominatorsHit (t : List Char) : ℕ :=
  (NON_SPORTS_DOMINATORS.filter (fun d => containsSub t d.data)).length

/-- The Sports guardrail applied to the raw Sports score. -/
def guardSports (t : List Char) (s : Int) : Int :=
  if !hasSportsAnchor t then -19980
  else if 2 ≤ dominatorsHit t ∧ s < SPORTS_MIN_SCORE + 60 then -19980
  else if s < SPORTS_MIN_SCORE then -19980
  else s

/-- `ranked[0]` of `sorted(scores.items(), key=value, reverse=True)`:
Python's sort is stable, so the first element of the ranking is the first
entry attaining the maximal score. -/
def pickBest : List (String × Int) → String × Int
  | [] => (GENERAL_LABEL, -19980)
  | p :: rest => rest.foldl (fun acc q => if acc.2 < q.2 then q else acc) p

/-- `ranked[1][1]`: the second-largest score counted with multiplicity,
i.e. the maximum after removing the ranking's first entry; the `-999.0`
default (scaled) when there is no second entry. -/
def secondScore (l : List (String × Int)) : Int :=
  if l.length ≤ 1 then -19980 else (pickBest (l.erase (pickBest l))).2

/-- `any(x in c for x in xs)` over a normalised category. -/
def anyIn (c : List Char) (xs : List String) : Bool :=
  xs.any (fun x => containsSub c x.data)

/-- `_map_source_category_to_topic`: the fixed cascade of substring rules
over the normalised category. -/
def map_source_category_to_topic (cat : String) : Option String :=
  let c := norm_cat cat
  if c = [] then none
  else if anyIn c ["deporte", "deportes", "sports", "futbol", "fútbol",
    "futebol", "tenis", "rugby", "basquet", "básquet", "basket"] then
    some "Sports"
  else if anyIn c ["politica", "política", "gobierno", "parlamento",
    "elecciones", "estado", "congreso", "senado"] then some "Politics"
  else if anyIn c ["mercado", "markets", "bolsa", "acciones", "bonos",
    "finanzas", "trading"] then some "Markets"
  else if anyIn c ["empresa", "empresas", "negocio", "negocios", "industria",
    "corporat"] then some "Business"
  else if anyIn c ["econom", "inflacion", "inflación", "pib", "macro"] then
    some "Economy"
  else if anyIn c ["internacional", "internacionales", "mundo", "world",
    "exterior", "global"] then some "World"
  else if anyIn c ["sociedad", "social", "comunidad", "local", "locales",
    "ciudad", "ciudades", "interes general", "interés general", "actualidad",
    "cotidiano"] then some "Society"
  else if anyIn c ["educacion", "educación", "escuela", "liceo", "universidad",
    "udelar", "ensenanza", "enseñanza"] then some "Education"
  else if anyIn c ["salud", "health", "hospital", "medicina", "covid",
    "dengue"] then some "Health"
  else if anyIn c ["ciencia", "science", "investigacion", "investigación",
    "laboratorio", "espacio", "astronomia", "astronomía"] then some "Science"
  else if anyIn c ["tecnologia", "tecnología", "technology", "tech",
    "ciberseguridad", "internet", "software", "inteligencia artificial",
    "inteligencia", "artificial", "ia", "ai"] then some "Technology"
  else if anyIn c ["energia", "energía", "petroleo", "petróleo", "gas", "ute",
    "ancap", "combustible", "renovable", "eolica", "eólica", "solar"] then
    some "Energy"
  else if anyIn c ["ambiente", "medio ambiente", "environment", "clima",
    "climate", "inundacion", "inundación", "sequia", "sequía", "contaminacion",
    "contaminación"] then some "Environment"
  else if anyIn c ["seguridad", "policial", "policiales", "policia", "policía",
    "crimen", "judicial", "tribunales", "narcotrafico", "narcotráfico",
    "delito", "delitos"] then some "Security"
  else if anyIn c ["cultura", "culture", "arte", "artes", "cine", "teatro",
    "musica", "música", "festival", "literatura"] then some "Culture"
  else if anyIn c ["nacional", "nacionales", "pais", "país", "uruguay",
    "argentina", "brasil", "paraguay", "bolivia"] then some "Society"
  else none

/-- `_topic_from_source_categories`: first declared category that maps. -/
def topic_from_source_categories (a : Article) : Option String :=
  (a.source_categories.map map_source_category_to_topic).foldl
    (fun acc m => match acc with | some t => some t | none => m) none

/-- The text blob the scoring fallback classifies: translated and original
title and snippet joined by spaces, then normalised. -/
def topicText (a : Article) : List Char :=
  norm_text_for_topic
    (a.title_en ++ " " ++ a.summary_en ++ " " ++ a.title ++ " " ++ a.snippet_text)

/-- The guarded score table of the fallback: every topic's
`_score_category` score, with the Sports guardrail applied. -/
def topicScores (t : List Char) : List (String × Int) :=
  CATEGORY_RULES.map (fun p =>
    if p.1 = "Sports" then (p.1, guardSports t (score_category t p.2))
    else (p.1, score_category t p.2))

/-- `_topic_label`: category-first, then the two-threshold scoring
fallback. -/
def topic_label (a : Article) : String :=
  match topic_from_source_categories a with
  | some t => t
  | none =>
    let t := topicText a
    if t = [] then GENERAL_LABEL
    else
      let scores := topicScores t
      let best := pickBest scores
      let second := secondScore scores
      if best.2 < MIN_SCORE then GENERAL_LABEL
      else if best.2 - second < MIN_MARGIN ∧ best.2 < STRONG_WIN_SCORE then
        GENERAL_LABEL
      else best.1

/-! ## `/news` query post-processing (`get_news`) -/

/-- The response payload assembled by `get_news` (the cache bookkeeping
keys added after the payload is stored do not touch `count` or
`articles`). -/
structure NewsResp where
  country : String
  range : String
  q : String
  limit : Int
  count : ℕ
  articles : List Article

/-- The limit clamp of `get_news`: an unparseable limit falls back to 50,
then the value is clamped into `1..200`. -/
def clampLimit (parsedLimit : Option Int) : Int :=
  max 1 (min (parsedLimit.getD 50) 200)

/-- The sort key of `get_news`'s final ordering. -/
def newsSortKey (a : Article) : Lex (ℚ × String) :=
  toLex (a.rank_score, a.published_utc.getD "")

/-- The cache-miss computation of `get_news`.  The feed collection
(`_collect_items`) is an external input `rawItems`; the float ranking
score `_rank_score` (an `exp`/`log` computation none of the claims touch)
is an input function.  The payload mirrors the source: dedupe, attach
`cluster_id`/`topic`/`rank_score`, stable-sort descending by
`(rank_score, published_utc)`, truncate to the clamped limit. -/
def get_news_core (rankScoreF : Article → ℚ) (rawItems : List Article)
    (country rng q : String) (parsedLimit : Option Int) : NewsResp :=
  let c := pyLower (pyStripStr (if country = "" then "uy" else country))
  let lim := clampLimit parsedLimit
  let items := dedupe rawItems
  let items := items.map (fun a =>
    let a1 := { a with cluster_id := sig a, topic := topic_label a }
    { a1 with rank_score := rankScoreF a1 })
  let items := items.insertionSort (fun a b => newsSortKey b ≤ newsSortKey a)
  let items := items.take lim.toNat
  { country := c, range := rng, q := q, limit := lim,
    count := items.length, articles := items }

/-! ## Concrete fixtures used by the scenario claims -/

/-- A 60-character snippet (crosses the `snip_len >= 60` quality tier). -/
def snip60 : String := "123456789012345678901234567890123456789012345678901234567890"

/-- An article holding both translated fields but no cached-enrichment
flag and no snippet. -/
def artEnOnly : Article :=
  { title := "misma noticia", country_key := "uy",
    published_utc := some "2025-01-15T10:30:00+00:00",
    title_en := "Same story", summary_en := "An English summary." }

/-- An article of the same signature group with a cached enrichment flag
and a long snippet, but no translations. -/
def artCachedSnip : Article :=
  { title := "misma noticia", country_key := "uy",
    published_utc := some "2025-01-15T10:30:00+00:00",
    snippet_text := snip60, has_cached_summary := true }

/-- First article of the duplicate-title scenario. -/
def artGobierno1 : Article :=
  { title := "Gobierno anuncia medida", country_key := "uy",
    published_utc := some "2025-01-15T10:30:00+00:00" }

/-- Second article of the duplicate-title scenario, as the spec writes
it. -/
def artGobierno2 : Article :=
  { title := "El gobierno anunció una medida", country_key := "uy",
    published_utc := some "2025-01-15T12:00:00+00:00" }

/-- A variant of the first title differing only in case and punctuation,
published later the same UTC day. -/
def artGobierno3 : Article :=
  { title := "¡GOBIERNO ANUNCIA MEDIDA!", country_key := "uy",
    published_utc := some "2025-01-15T12:00:00+00:00" }

/-- The ambiguous-politics-text scenario article (no declared
categories, so the scoring fallback runs). -/
def artPartido : Article :=
  { title := "el presidente anunció un decreto sobre el partido de la coalición" }

/-! ## Lemmas about the deduplicator -/

theorem sig_setDup (a : Article) (c : ℕ) :
    sig { a with duplicates_count := some c } = sig a := rfl

theorem quality_setDup (a : Article) (c : ℕ) :
    quality_score { a with duplicates_count := some c } = quality_score a := rfl

theorem mem_insertBest {acc : List (String × Article)} {s : String} {a : Article}
    {p : String × Article} (hp : p ∈ insertBest acc s a) : p ∈ acc ∨ p = (s, a) := by
  induction acc with
  | nil => simpa [insertBest] using hp
  | cons hd tl ih =>
    obtain ⟨k, b⟩ := hd
    by_cases hks : k = s
    · subst hks
      simp only [insertBest, if_pos rfl] at hp
      by_cases hq : quality_score b < quality_score a
      · rw [if_pos hq] at hp
        rcases List.mem_cons.mp hp with h | h
        · right; exact h
        · left; exact List.mem_cons_of_mem _ h
      · rw [if_neg hq] at hp
        rcases List.mem_cons.mp hp with h | h
        · left; exact h ▸ List.mem_cons_self _ _
        · left; exact List.mem_cons_of_mem _ h
    · simp only [insertBest, if_neg hks] at hp
      rcases List.mem_cons.mp hp with h | h
      · left; exact h ▸ List.mem_cons_self _ _
      · rcases ih h with h2 | h2
        · left; exact List.mem_cons_of_mem _ h2
        · right; exact h2

theorem keys_insertBest (acc : List (String × Article)) (s : String) (a : Article) :
    (insertBest acc s a).map Prod.fst =
      if s ∈ acc.map Prod.fst then acc.map Prod.fst else acc.map Prod.fst ++ [s] := by
  induction acc with
  | nil => simp [insertBest]
  | cons hd tl ih =>
    obtain ⟨k, b⟩ := hd
    by_cases hks : k = s
    · subst hks
      have hmem : k ∈ ((k, b) :: tl).map Prod.fst := by simp
      have hins : insertBest ((k, b) :: tl) k a =
          (if quality_score b < quality_score a then (k, a) else (k, b)) :: tl := by
        simp [insertBest]
      rw [hins, if_pos hmem]
      by_cases hq : quality_score b < quality_score a
      · rw [if_pos hq]; simp
      · rw [if_neg hq]
    · simp only [insertBest, if_neg hks, List.map_cons, ih, List.mem_cons]
      by_cases hmem : s ∈ tl.map Prod.fst
      · rw [if_pos hmem, if_pos (Or.inr hmem)]
      · rw [if_neg hmem, if_neg ?_, List.cons_append]
        rintro (h | h)
        · exact hks h.symm
        · exact hmem h

theorem nodup_keys_insertBest {acc : List (String × Article)} (s : String) (a : Article)
    (h : (acc.map Prod.fst).Nodup) : ((insertBest acc s a).map Prod.fst).Nodup := by
  rw [keys_insertBest]
  by_cases hmem : s ∈ acc.map Prod.fst
  · rwa [if_pos hmem]
  · rw [if_neg hmem]
    exact List.Nodup.append h (List.nodup_singleton s) (by simpa using hmem)

theorem mem_keys_insertBest (acc : List (String × Article)) (s : String) (a : Article) :
    s ∈ (insertBest acc s a).map Prod.fst := by
  rw [keys_insertBest]
  by_cases hmem : s ∈ acc.map Prod.fst
  · rwa [if_pos hmem]
  · rw [if_neg hmem]; simp

theorem subset_keys_insertBest (acc : List (String × Article)) (s : String) (a : Article) :
    acc.map Prod.fst ⊆ (insertBest acc s a).map Prod.fst := by
  rw [keys_insertBest]
  by_cases hmem : s ∈ acc.map Prod.fst
  · rw [if_pos hmem]; exact List.Subset.refl _
  · rw [if_neg hmem]; exact List.subset_append_left _ _

theorem sig_consistent_insertBest {acc : List (String × Article)} {a : Article}
    (h : ∀ p ∈ acc, sig p.2 = p.1) :
    ∀ p ∈ insertBest acc (sig a) a, sig p.2 = p.1 := by
  intro p hp
  rcases mem_insertBest hp with h2 | h2
  · exact h p h2
  · rw [h2]

theorem insertBest_le_new {acc : List (String × Article)} {s : String} {a : Article}
    (hnd : (acc.map Prod.fst).Nodup) :
    ∀ p ∈ insertBest acc s a, p.1 = s → quality_score a ≤ quality_score p.2 := by
  induction acc with
  | nil =>
    intro p hp _
    simp only [insertBest, List.mem_singleton] at hp
    rw [hp]
  | cons hd tl ih =>
    obtain ⟨k, b⟩ := hd
    intro p hp hps
    by_cases hks : k = s
    · subst hks
      simp only [insertBest, if_pos rfl] at hp
      rcases List.mem_cons.mp hp with h | h
      · by_cases hq : quality_score b < quality_score a
        · rw [if_pos hq] at h; rw [h]
        · rw [if_neg hq] at h; rw [h]; exact le_of_not_lt hq
      · exfalso
        simp only [List.map_cons, List.nodup_cons] at hnd
        exact hnd.1 (hps ▸ List.mem_map_of_mem Prod.fst h)
    · simp only [insertBest, if_neg hks] at hp
      rcases List.mem_cons.mp hp with h | h
      · rw [h] at hps; exact absurd hps hks
      · simp only [List.map_cons, List.nodup_cons] at hnd
        exact ih hnd.2 p h hps

theorem insertBest_growth {acc : List (String × Article)} {s : String} {a : Article} :
    ∀ p ∈ insertBest acc s a, p.1 ∈ acc.map Prod.fst →
      ∃ q ∈ acc, q.1 = p.1 ∧ quality_score q.2 ≤ quality_score p.2 := by
  induction acc with
  | nil => intro p _ hk; simp at hk
  | cons hd tl ih =>
    obtain ⟨k, b⟩ := hd
    intro p hp hk
    by_cases hks : k = s
    · subst hks
      simp only [insertBest, if_pos rfl] at hp
      rcases List.mem_cons.mp hp with h | h
      · refine ⟨(k, b), List.mem_cons_self _ _, ?_, ?_⟩
        · by_cases hq : quality_score b < quality_score a
          · rw [if_pos hq] at h; rw [h]
          · rw [if_neg hq] at h; rw [h]
        · by_cases hq : quality_score b < quality_score a
          · rw [if_pos hq] at h; rw [h]; exact le_of_lt hq
          · rw [if_neg hq] at h; rw [h]
      · exact ⟨p, List.mem_cons_of_mem _ h, rfl, le_refl _⟩
    · simp only [insertBest, if_neg hks] at hp
      rcases List.mem_cons.mp hp with h | h
      · exact ⟨p, h ▸ List.mem_cons_self _ _, rfl, le_refl _⟩
      · rcases mem_insertBest h with h2 | h2
        · exact ⟨p, List.mem_cons_of_mem _ h2, rfl, le_refl _⟩
        · have hps : p.1 = s := by rw [h2]
          simp only [List.map_cons, List.mem_cons] at hk
          rcases hk with hk | hk
          · exact absurd (hps ▸ hk.symm : k = s) hks
          · rcases ih p h hk with ⟨q, hq1, hq2, hq3⟩
            exact ⟨q, List.mem_cons_of_mem _ hq1, hq2, hq3⟩

theorem dedupeAux_keys_nodup {xs : List Article} :
    ∀ {acc : List (String × Article)}, (acc.map Prod.fst).Nodup →
      ((dedupeAux acc xs).map Prod.fst).Nodup := by
  induction xs with
  | nil => intro acc h; exact h
  | cons x rest ih =>
    intro acc h
    exact ih (nodup_keys_insertBest (sig x) x h)

theorem dedupeAux_sig_consistent {xs : List Article} :
    ∀ {acc : List (String × Article)}, (∀ p ∈ acc, sig p.2 = p.1) →
      ∀ p ∈ dedupeAux acc xs, sig p.2 = p.1 := by
  induction xs with
  | nil => intro acc h; exact h
  | cons x rest ih =>
    intro acc h
    exact ih (sig_consistent_insertBest h)

theorem dedupeAux_mem {xs : List Article} :
    ∀ {acc : List (String × Article)}, ∀ p ∈ dedupeAux acc xs, p ∈ acc ∨ p.2 ∈ xs := by
  induction xs with
  | nil => intro acc p hp; exact Or.inl hp
  | cons x rest ih =>
    intro acc p hp
    rcases ih p hp with h | h
    · rcases mem_insertBest h with h2 | h2
      · exact Or.inl h2
      · right; rw [h2]; exact List.mem_cons_self _ _
    · exact Or.inr (List.mem_cons_of_mem _ h)

theorem dedupeAux_growth {xs : List Article} :
    ∀ {acc : List (String × Article)}, ∀ p ∈ dedupeAux acc xs, p.1 ∈ acc.map Prod.fst →
      ∃ q ∈ acc, q.1 = p.1 ∧ quality_score q.2 ≤ quality_score p.2 := by
  induction xs with
  | nil => intro acc p hp hk; exact ⟨p, hp, rfl, le_refl _⟩
  | cons x rest ih =>
    intro acc p hp hk
    have hp2 : p ∈ dedupeAux (insertBest acc (sig x) x) rest := hp
    rcases ih p hp2 (subset_keys_insertBest acc (sig x) x hk) with ⟨q, hq1, hq2, hq3⟩
    have hqk : q.1 ∈ acc.map Prod.fst := by rw [hq2]; exact hk
    rcases insertBest_growth q hq1 hqk with ⟨r, hr1, hr2, hr3⟩
    exact ⟨r, hr1, hr2.trans hq2, hr3.trans hq3⟩

theorem dedupeAux_max {xs : List Article} :
    ∀ {acc : List (String × Article)}, (acc.map Prod.fst).Nodup →
      ∀ p ∈ dedupeAux acc xs, ∀ a ∈ xs, sig a = p.1 →
        quality_score a ≤ quality_score p.2 := by
  induction xs with
  | nil => intro acc _ p _ a ha; exact absurd ha (List.not_mem_nil a)
  | cons x rest ih =>
    intro acc hnd p hp a ha hsig
    have hp2 : p ∈ dedupeAux (insertBest acc (sig x) x) rest := hp
    rcases List.mem_cons.mp ha with h | h
    · subst h
      have hk : p.1 ∈ (insertBest acc (sig a) a).map Prod.fst := by
        rw [← hsig]; exact mem_keys_insertBest acc (sig a) a
      rcases dedupeAux_growth p hp2 hk with ⟨q, hq1, hq2, hq3⟩
      exact (insertBest_le_new hnd q hq1 (hq2.trans hsig.symm)).trans hq3
    · exact ih (nodup_keys_insertBest (sig x) x hnd) p hp2 a h hsig

theorem dedupe_map_sig (xs : List Article) :
    (dedupe xs).map sig = (dedupeAux [] xs).map Prod.fst := by
  unfold dedupe
  rw [List.map_map]
  refine List.map_congr_left ?_
  intro p hp
  have hsig : sig p.2 = p.1 := dedupeAux_sig_consistent (by simp) p hp
  by_cases hc : 1 < countSig xs (sig p.2)
  · rw [Function.comp_apply, if_pos hc, sig_setDup, hsig]
  · rw [Function.comp_apply, if_neg hc, hsig]

theorem dedupe_sig_nodup (xs : List Article) : ((dedupe xs).map sig).Nodup := by
  rw [dedupe_map_sig]
  exact dedupeAux_keys_nodup (by simp)

theorem insertBest_of_not_mem {acc : List (String × Article)} {s : String}
    {a : Article} (h : s ∉ acc.map Prod.fst) :
    insertBest acc s a = acc ++ [(s, a)] := by
  induction acc with
  | nil => simp [insertBest]
  | cons hd tl ih =>
    obtain ⟨k, b⟩ := hd
    simp only [List.map_cons, List.mem_cons] at h
    push_neg at h
    rw [show insertBest ((k, b) :: tl) s a =
        if k = s then (if quality_score b < quality_score a then (k, a) else (k, b)) :: tl
        else (k, b) :: insertBest tl s a from rfl]
    rw [if_neg (fun hk => h.1 hk.symm), ih h.2, List.cons_append]

theorem dedupeAux_all_new {ys : List Article} :
    ∀ {acc : List (String × Article)}, (∀ a ∈ ys, sig a ∉ acc.map Prod.fst) →
      (ys.map sig).Nodup →
      dedupeAux acc ys = acc ++ ys.map (fun a => (sig a, a)) := by
  induction ys with
  | nil => intro acc _ _; simp [dedupeAux]
  | cons y rest ih =>
    intro acc hnew hnd
    simp only [List.map_cons, List.nodup_cons] at hnd
    have h1 : sig y ∉ acc.map Prod.fst := hnew y (List.mem_cons_self _ _)
    have step : dedupeAux acc (y :: rest) = dedupeAux (insertBest acc (sig y) y) rest :=
      rfl
    rw [step, insertBest_of_not_mem h1, ih ?hnew2 hnd.2]
    · simp
    case hnew2 =>
      intro a ha
      rw [List.map_append]
      simp only [List.mem_append, List.map_cons, List.map_nil, List.mem_singleton]
      rintro (hmem | hmem)
      · exact hnew a (List.mem_cons_of_mem _ ha) hmem
      · exact hnd.1 (hmem ▸ List.mem_map_of_mem sig ha)

theorem countSig_eq_one {ys : List Article} (hnd : (ys.map sig).Nodup) {a : Article}
    (ha : a ∈ ys) : countSig ys (sig a) = 1 := by
  induction ys with
  | nil => cases ha
  | cons y rest ih =>
    simp only [List.map_cons, List.nodup_cons] at hnd
    rcases List.mem_cons.mp ha with h | h
    · subst h
      unfold countSig
      rw [List.filter_cons_of_pos (by simp)]
      have hrest : rest.filter (fun b => decide (sig b = sig a)) = [] := by
        rw [List.filter_eq_nil_iff]
        intro b hb
        simp only [decide_eq_true_eq]
        intro hba
        exact hnd.1 (hba ▸ List.mem_map_of_mem sig hb)
      rw [hrest, List.length_singleton]
    · unfold countSig
      rw [List.filter_cons_of_neg ?hy]
      · exact ih hnd.2 h
      case hy =>
        simp only [decide_eq_true_eq]
        intro hya
        exact hnd.1 (hya.symm ▸ List.mem_map_of_mem sig h)

theorem dedupe_of_nodup {ys : List Article} (hnd : (ys.map sig).Nodup) :
    dedupe ys = ys := by
  unfold dedupe
  rw [dedupeAux_all_new (by simp) hnd, List.nil_append, List.map_map]
  have : ∀ a ∈ ys,
      ((fun p : String × Article =>
          if 1 < countSig ys (sig p.2) then
            { p.2 with duplicates_count := some (countSig ys (sig p.2)) }
          else p.2) ∘ fun a => (sig a, a)) a = a := by
    intro a ha
    have h1 := countSig_eq_one hnd ha
    simp [Function.comp, h1]
  rw [List.map_congr_left this]
  exact List.map_id ys

/-- **C8** (amended strengthening not needed — exact equality holds):
deduplication is idempotent, `dedupe (dedupe xs) = dedupe xs`, even
preserving the order of canonical items exactly. -/
theorem C8_dedupe_idempotent (xs : List Article) :
    dedupe (dedupe xs) = dedupe xs :=
  dedupe_of_nodup (dedupe_sig_nodup xs)

/-- **C1** (amended).  `dedupe` keeps exactly one representative per
signature group — the group's quality maximum, where the quality key is
the lexicographic triple whose leading component is the *weighted sum*
`3*(has both translations) + 2*(has cached enrichment) + 1*(snippet ≥ 60)`
(not three strict tiers), then snippet length, then publish timestamp.
Consequently an article with both translations *and* the cached-enrichment
flag always outranks any article lacking both translations; an article
with both translations but without the cached flag can tie on the leading
component with a cached-and-long-snippet article and lose on snippet
length. -/
theorem C1_dedupe_quality_ordering (xs : List Article) :
    ((dedupe xs).map sig).Nodup ∧
    (∀ r ∈ dedupe xs,
      (∃ a ∈ xs, sig a = sig r ∧ quality_score a = quality_score r) ∧
      ∀ a ∈ xs, sig a = sig r → quality_score a ≤ quality_score r) ∧
    (∀ a b : Article, a.title_en ≠ "" → a.summary_en ≠ "" →
      a.has_cached_summary = true → (b.title_en = "" ∨ b.summary_en = "") →
      quality_score b < quality_score a) := by
  refine ⟨dedupe_sig_nodup xs, ?_, ?_⟩
  · intro r hr
    unfold dedupe at hr
    rcases List.mem_map.mp hr with ⟨p, hp, rfl⟩
    have hsig : sig p.2 = p.1 := dedupeAux_sig_consistent (by simp) p hp
    have hmem : p.2 ∈ xs := by
      rcases dedupeAux_mem p hp with h | h
      · cases h
      · exact h
    have hsr : sig (if 1 < countSig xs (sig p.2) then
        { p.2 with duplicates_count := some (countSig xs (sig p.2)) } else p.2) =
        sig p.2 := by
      by_cases hc : 1 < countSig xs (sig p.2)
      · rw [if_pos hc, sig_setDup]
      · rw [if_neg hc]
    have hqr : quality_score (if 1 < countSig xs (sig p.2) then
        { p.2 with duplicates_count := some (countSig xs (sig p.2)) } else p.2) =
        quality_score p.2 := by
      by_cases hc : 1 < countSig xs (sig p.2)
      · rw [if_pos hc, quality_setDup]
      · rw [if_neg hc]
    constructor
    · exact ⟨p.2, hmem, hsr.symm, hqr.symm⟩
    · intro a ha hsa
      rw [hqr]
      exact dedupeAux_max (by simp) p hp a ha (by rw [hsa, hsr, hsig])
  · intro a b ha1 ha2 hac hb
    have hben : ¬(b.title_en ≠ "" ∧ b.summary_en ≠ "") := by
      rcases hb with h | h
      · exact fun hcon => hcon.1 h
      · exact fun hcon => hcon.2 h
    unfold quality_score
    refine (Prod.Lex.lt_iff _ _).mpr (Or.inl ?_)
    simp only [if_pos (And.intro ha1 ha2), if_pos hac, if_neg hben, hac,
      eq_self_iff_true, if_true]
    have h1 : (if b.has_cached_summary = true then 1 else 0) ≤ 1 := by
      split <;> omega
    have h2 : (if 60 ≤ (pyStrip b.snippet_text.data).length then 1 else 0) ≤ 1 := by
      split <;> omega
    have h3 : (0 : ℕ) ≤ if 60 ≤ (pyStrip a.snippet_text.data).length then 1 else 0 := by
      omega
    omega

/-- **C1** (counterexample to the claim as stated): an article carrying
both translated fields but no cached-enrichment flag is *outranked* by an
article that merely has a cached enrichment and a 60-character snippet —
the weighted leading components tie at 3 and snippet length decides, so
`dedupe` elects the untranslated article as representative. -/
theorem C1_counterexample :
    artEnOnly.title_en ≠ "" ∧ artEnOnly.summary_en ≠ "" ∧
    artEnOnly.has_cached_summary = false ∧
    artCachedSnip.title_en = "" ∧ artCachedSnip.summary_en = "" ∧
    artCachedSnip.has_cached_summary = true ∧
    60 ≤ (pyStrip artCachedSnip.snippet_text.data).length ∧
    quality_score artEnOnly < quality_score artCachedSnip ∧
    dedupe [artEnOnly, artCachedSnip] =
      [{ artCachedSnip with duplicates_count := some 2 }] := by
  decide

/-- **C1** (witness): the amended theorem applied to the concrete
two-article group — the elected representative's quality dominates the
translated-only article's. -/
theorem C1_witness :
    quality_score artEnOnly ≤
      quality_score { artCachedSnip with duplicates_count := some 2 } :=
  ((C1_dedupe_quality_ordering [artEnOnly, artCachedSnip]).2.1
      { artCachedSnip with duplicates_count := some 2 } (by decide)).2
    artEnOnly (by decide) (by decide)

/-- **C2** (counterexample to the claim as stated): `_norm_title` does no
stopword or accent folding, so the two scenario titles normalise to
*different* strings ("gobierno anuncia medida" vs
"el gobierno anunci una medida"), their signatures differ, and `dedupe`
returns two singleton clusters with no `duplicates_count`. -/
theorem C2_counterexample :
    norm_title "Gobierno anuncia medida" ≠
      norm_title "El gobierno anunció una medida" ∧
    sig artGobierno1 ≠ sig artGobierno2 ∧
    dedupe [artGobierno1, artGobierno2] = [artGobierno1, artGobierno2] ∧
    artGobierno1.duplicates_count = none ∧
    artGobierno2.duplicates_count = none := by
  decide

/-- **C2** (amended).  Two same-country, same-UTC-day articles whose
titles differ only in case and punctuation do collapse to one signature:
dedupe yields a single cluster whose representative (the one winning the
publish-timestamp quality tiebreak) carries `duplicates_count = 2`. -/
theorem C2_title_normalisation_cluster :
    norm_title "Gobierno anuncia medida" = norm_title "¡GOBIERNO ANUNCIA MEDIDA!" ∧
    sig artGobierno1 = sig artGobierno3 ∧
    dedupe [artGobierno1, artGobierno3] =
      [{ artGobierno3 with duplicates_count := some 2 }] ∧
    (dedupe [artGobierno1, artGobierno3]).map (fun a => a.duplicates_count) =
      [some 2] := by
  decide

/-! ## Lemmas about the rate limiter -/

theorem bucketOf_storeBucket (st : RateBuckets) (ip : String) (b : List ℚ) :
    bucketOf (storeBucket st ip b) ip = b := by
  induction st with
  | nil => simp [storeBucket, bucketOf]
  | cons hd tl ih =>
    obtain ⟨k, b0⟩ := hd
    by_cases hk : k = ip
    · simp [storeBucket, bucketOf, hk]
    · simp [storeBucket, bucketOf, hk, ih]

theorem effWindow_pos (cfg : RateConfig) : 0 < effWindow cfg := by
  unfold effWindow
  split <;> omega

/-- **C3** (amended).  A *denied* check leaves the stored buckets
untouched (the pruned copy is discarded), so stale timestamps can remain
stored after a denial; only an *allowed* check (with the limiter enabled
and a positive limit) writes back the pruned bucket, and then every
stored timestamp of that client lies within the sliding window. -/
theorem C3_bucket_pruned_only_on_allow (cfg : RateConfig) (st : RateBuckets)
    (ip : String) (now : ℚ) :
    ((rate_limit_check cfg st ip now).1 = false →
      (rate_limit_check cfg st ip now).2 = st) ∧
    (cfg.enabled = true → 0 < cfg.rpm →
      (rate_limit_check cfg st ip now).1 = true →
      ∀ t ∈ bucketOf (rate_limit_check cfg st ip now).2 ip,
        now - (effWindow cfg : ℚ) ≤ t) := by
  by_cases he : cfg.enabled
  · by_cases hr : cfg.rpm ≤ 0
    · constructor
      · intro hfalse
        simp [rate_limit_check, he, hr] at hfalse
      · intro _ hrpm
        exact absurd hr (not_le.mpr hrpm)
    · have hunfold : rate_limit_check cfg st ip now =
          (if cfg.rpm ≤ ((((bucketOf st ip).filter
              (fun t => now - ((effWindow cfg : Int) : ℚ) ≤ t)).length : ℕ) : Int) then
            (false, st)
          else (true, storeBucket st ip
            (((bucketOf st ip).filter
              (fun t => now - ((effWindow cfg : Int) : ℚ) ≤ t)) ++ [now]))) := by
        simp [rate_limit_check, he, hr]
      by_cases hlen : cfg.rpm ≤ ((((bucketOf st ip).filter
          (fun t => now - ((effWindow cfg : Int) : ℚ) ≤ t)).length : ℕ) : Int)
      · rw [hunfold, if_pos hlen]
        exact ⟨fun _ => rfl, fun _ _ htrue => absurd htrue (by simp)⟩
      · rw [hunfold, if_neg hlen]
        constructor
        · intro hfalse
          exact absurd hfalse (by simp)
        · intro _ _ _ t ht
          simp only [bucketOf_storeBucket] at ht
          rcases List.mem_append.mp ht with h | h
          · exact of_decide_eq_true (List.mem_filter.mp h).2
          · rw [List.mem_singleton] at h
            subst h
            have hw : (0 : ℚ) ≤ ((effWindow cfg : Int) : ℚ) := by
              exact_mod_cast (effWindow_pos cfg).le
            linarith
  · constructor
    · intro hfalse
      simp [rate_limit_check, he] at hfalse
    · intro hen
      exact absurd hen (by simpa using he)

/-- **C3** (witness): the amended theorem applied to an enabled limiter
with limit 2 and an empty state at time 100 — the check allows, and every
stored timestamp is inside the window. -/
theorem C3_witness :
    RateConfig.enabled ⟨true, 2, 60⟩ = true ∧ (0 : Int) < RateConfig.rpm ⟨true, 2, 60⟩ ∧
    (rate_limit_check ⟨true, 2, 60⟩ [] "c" 100).1 = true ∧
    ((100 : ℚ) ∈ bucketOf (rate_limit_check ⟨true, 2, 60⟩ [] "c" 100).2 "c" →
      (100 : ℚ) - (effWindow ⟨true, 2, 60⟩ : ℚ) ≤ 100) := by
  have htrue : (rate_limit_check ⟨true, 2, 60⟩ [] "c" 100).1 = true := by
    simp [rate_limit_check, bucketOf]
  exact ⟨rfl, by decide, htrue,
    (C3_bucket_pruned_only_on_allow ⟨true, 2, 60⟩ [] "c" 100).2 rfl (by decide) htrue 100⟩

/-- **C3** (counterexample to the claim as stated): a denied check leaves
the stored bucket unchanged, so the stale timestamp 0 (far older than
`now − window = 10`) is still stored after the check. -/
theorem C3_counterexample :
    (rate_limit_check ⟨true, 1, 60⟩ [("1.2.3.4", [0, 50])] "1.2.3.4" 70).1 = false ∧
    bucketOf (rate_limit_check ⟨true, 1, 60⟩ [("1.2.3.4", [0, 50])] "1.2.3.4" 70).2
      "1.2.3.4" = [0, 50] ∧
    (0 : ℚ) < 70 - (effWindow ⟨true, 1, 60⟩ : ℚ) := by
  have hcheck : rate_limit_check ⟨true, 1, 60⟩ [("1.2.3.4", [0, 50])] "1.2.3.4" 70 =
      (false, [("1.2.3.4", [0, 50])]) := by
    norm_num [rate_limit_check, effWindow, bucketOf]
  rw [hcheck]
  refine ⟨rfl, by simp [bucketOf], ?_⟩
  show (0 : ℚ) < 70 - ((60 : Int) : ℚ)
  norm_num

/-- **C6**.  With the limiter enabled at limit 3 and a 60-second window,
four checks from the same (initially unseen) client within one second
allow the first three and deny the fourth. -/
theorem C6_rate_limit_three_then_deny (st0 : RateBuckets) (ip : String)
    (t0 t1 t2 t3 : ℚ) (h0 : bucketOf st0 ip = [])
    (h01 : t0 ≤ t1) (h12 : t1 ≤ t2) (h23 : t2 ≤ t3) (hspan : t3 ≤ t0 + 1) :
    (rate_limit_check ⟨true, 3, 60⟩ st0 ip t0).1 = true ∧
    (rate_limit_check ⟨true, 3, 60⟩
      (rate_limit_check ⟨true, 3, 60⟩ st0 ip t0).2 ip t1).1 = true ∧
    (rate_limit_check ⟨true, 3, 60⟩
      (rate_limit_check ⟨true, 3, 60⟩
        (rate_limit_check ⟨true, 3, 60⟩ st0 ip t0).2 ip t1).2 ip t2).1 = true ∧
    (rate_limit_check ⟨true, 3, 60⟩
      (rate_limit_check ⟨true, 3, 60⟩
        (rate_limit_check ⟨true, 3, 60⟩
          (rate_limit_check ⟨true, 3, 60⟩ st0 ip t0).2 ip t1).2 ip t2).2 ip t3).1 =
      false := by
  have hw : ((effWindow ⟨true, 3, 60⟩ : Int) : ℚ) = 60 := by norm_num [effWindow]
  have hin01 : t1 ≤ t0 + (60 : ℚ) := by linarith
  have hin02 : t2 ≤ t0 + (60 : ℚ) := by linarith
  have hin03 : t3 ≤ t0 + (60 : ℚ) := by linarith
  have hin12 : t2 ≤ t1 + (60 : ℚ) := by linarith
  have hin13 : t3 ≤ t1 + (60 : ℚ) := by linarith
  have hin23 : t3 ≤ t2 + (60 : ℚ) := by linarith
  have s1 : rate_limit_check ⟨true, 3, 60⟩ st0 ip t0 =
      (true, storeBucket st0 ip [t0]) := by
    simp [rate_limit_check, effWindow, h0]
  have s2 : rate_limit_check ⟨true, 3, 60⟩ (storeBucket st0 ip [t0]) ip t1 =
      (true, storeBucket (storeBucket st0 ip [t0]) ip [t0, t1]) := by
    simp [rate_limit_check, effWindow, bucketOf_storeBucket, hin01]
  have s3 : rate_limit_check ⟨true, 3, 60⟩
      (storeBucket (storeBucket st0 ip [t0]) ip [t0, t1]) ip t2 =
      (true, storeBucket (storeBucket (storeBucket st0 ip [t0]) ip [t0, t1]) ip
        [t0, t1, t2]) := by
    simp [rate_limit_check, effWindow, bucketOf_storeBucket, hin02, hin12]
  have s4 : (rate_limit_check ⟨true, 3, 60⟩
      (storeBucket (storeBucket (storeBucket st0 ip [t0]) ip [t0, t1]) ip
        [t0, t1, t2]) ip t3).1 = false := by
    simp [rate_limit_check, effWindow, bucketOf_storeBucket, hin03, hin13, hin23]
  rw [s1]
  rw [show (true, storeBucket st0 ip [t0]).2 = storeBucket st0 ip [t0] from rfl, s2]
  refine ⟨rfl, rfl, ?_, ?_⟩
  · rw [show (true, storeBucket (storeBucket st0 ip [t0]) ip [t0, t1]).2 =
      storeBucket (storeBucket st0 ip [t0]) ip [t0, t1] from rfl, s3]
  · rw [show (true, storeBucket (storeBucket st0 ip [t0]) ip [t0, t1]).2 =
      storeBucket (storeBucket st0 ip [t0]) ip [t0, t1] from rfl, s3,
      show (true, storeBucket (storeBucket (storeBucket st0 ip [t0]) ip [t0, t1]) ip
        [t0, t1, t2]).2 = storeBucket (storeBucket (storeBucket st0 ip [t0]) ip
        [t0, t1]) ip [t0, t1, t2] from rfl, s4]

/-- **C6** (witness): the scenario at concrete times 0, 0, 0, 1 starting
from an empty bucket store. -/
theorem C6_witness :
    (rate_limit_check ⟨true, 3, 60⟩ [] "c" 0).1 = true ∧
    (rate_limit_check ⟨true, 3, 60⟩
      (rate_limit_check ⟨true, 3, 60⟩ [] "c" 0).2 "c" 0).1 = true ∧
    (rate_limit_check ⟨true, 3, 60⟩
      (rate_limit_check ⟨true, 3, 60⟩
        (rate_limit_check ⟨true, 3, 60⟩ [] "c" 0).2 "c" 0).2 "c" 0).1 = true ∧
    (rate_limit_check ⟨true, 3, 60⟩
      (rate_limit_check ⟨true, 3, 60⟩
        (rate_limit_check ⟨true, 3, 60⟩
          (rate_limit_check ⟨true, 3, 60⟩ [] "c" 0).2 "c" 0).2 "c" 0).2 "c" 1).1 =
      false :=
  C6_rate_limit_three_then_deny [] "c" 0 0 0 1 rfl (le_refl 0) (le_refl 0)
    (by simp) (by simp)

/-- **C4**.  Enrichment freshness is monotone in the TTL, and a record
whose stored timestamp is missing (empty) or unparseable is never fresh,
for any TTL and any behaviour of the underlying ISO-8601 parser. -/
theorem C4_freshness_monotone_in_ttl :
    (∀ (fromiso : String → Option ℚ) (now : ℚ) (s : String) (ttl1 ttl2 : Int),
      is_cache_fresh fromiso now s ttl1 = true → ttl1 ≤ ttl2 →
      is_cache_fresh fromiso now s ttl2 = true) ∧
    (∀ (fromiso : String → Option ℚ) (now : ℚ) (s : String) (ttl : Int),
      parse_iso_utc fromiso s = none → is_cache_fresh fromiso now s ttl = false) ∧
    (∀ (fromiso : String → Option ℚ) (now : ℚ) (ttl : Int),
      is_cache_fresh fromiso now "" ttl = false) := by
  refine ⟨?_, ?_, ?_⟩
  · intro fromiso now s ttl1 ttl2 h1 h12
    unfold is_cache_fresh at h1 ⊢
    cases hp : parse_iso_utc fromiso s with
    | none => rw [hp] at h1; exact absurd h1 (by simp)
    | some t =>
      rw [hp] at h1
      have hle : now - t ≤ ((ttl1 : Int) : ℚ) := of_decide_eq_true (by simpa using h1)
      have hc : ((ttl1 : Int) : ℚ) ≤ ((ttl2 : Int) : ℚ) := by exact_mod_cast h12
      simpa using decide_eq_true (le_trans hle hc)
  · intro fromiso now s ttl hp
    unfold is_cache_fresh
    rw [hp]
  · intro fromiso now ttl
    unfold is_cache_fresh parse_iso_utc
    simp

/-- **C4** (witness): a record timestamped 0 read at time 5 is fresh for
TTL 7, hence by monotonicity also fresh for TTL 10. -/
theorem C4_witness :
    is_cache_fresh (fun _ => some 0) 5 "t" 7 = true ∧
    is_cache_fresh (fun _ => some 0) 5 "t" 10 = true := by
  have h7 : is_cache_fresh (fun _ => some 0) 5 "t" 7 = true := by
    have hp : parse_iso_utc (fun _ => some (0 : ℚ)) "t" = some 0 := by
      unfold parse_iso_utc
      rw [if_neg (by decide : ¬("t" = ""))]
    unfold is_cache_fresh
    rw [hp]
    simp only [decide_eq_true_eq]
    norm_num
  exact ⟨h7,
    C4_freshness_monotone_in_ttl.1 (fun _ => some 0) 5 "t" 7 10 h7 (by decide)⟩

/-- **C9**.  When the external translation call fails or its output is
unparseable (`callResult = none`), the worker-side enrichment step
returns an enriched count of zero and leaves the durable cache untouched;
the function is total, mirroring that the Python `except` branch never
re-raises. -/
theorem C9_translation_failure_zero_enrichments (cache : EnrichCache)
    (now : String) (items : List EnrichItem) :
    enrich_internal cache now items none = (0, cache) := by
  unfold enrich_internal
  split
  · rfl
  · dsimp only
    split <;> rfl

/-- **C10**.  The `/news` computation clamps the effective limit into
`1..200` (an unparseable limit falling back to 50 first), returns at most
that many articles, and reports `count` equal to the length of the
returned article list. -/
theorem C10_news_limit_count (rankScoreF : Article → ℚ) (rawItems : List Article)
    (country rng q : String) (parsedLimit : Option Int) :
    (get_news_core rankScoreF rawItems country rng q parsedLimit).limit =
      clampLimit parsedLimit ∧
    1 ≤ clampLimit parsedLimit ∧ clampLimit parsedLimit ≤ 200 ∧
    clampLimit none = 50 ∧
    (get_news_core rankScoreF rawItems country rng q parsedLimit).count =
      (get_news_core rankScoreF rawItems country rng q parsedLimit).articles.length ∧
    (get_news_core rankScoreF rawItems country rng q parsedLimit).articles.length ≤
      (clampLimit parsedLimit).toNat := by
  refine ⟨rfl, ?_, ?_, by decide, rfl, ?_⟩
  · exact le_max_left 1 _
  · exact max_le (by decide) (min_le_right _ _)
  · exact List.length_take_le _ _

/-! ## Lemmas about the topic classifier -/

theorem sumHits_nonneg_aux (t : List Char) (l : List (String × Int))
    (hw : ∀ p ∈ l, 0 ≤ p.2) :
    ∀ acc : Int, 0 ≤ acc →
      0 ≤ l.foldl (fun acc p => acc + p.2 * (count_phrase_hits t p.1 : Int)) acc := by
  induction l with
  | nil => intro acc hacc; exact hacc
  | cons p rest ih =>
    intro acc hacc
    refine ih (fun q hq => hw q (List.mem_cons_of_mem _ hq)) _ ?_
    have h1 : 0 ≤ p.2 := hw p (List.mem_cons_self _ _)
    have h2 : (0 : Int) ≤ (count_phrase_hits t p.1 : Int) := Int.ofNat_nonneg _
    positivity

theorem sumHits_nonneg (t : List Char) (l : List (String × Int))
    (hw : ∀ p ∈ l, 0 ≤ p.2) : 0 ≤ sumHits t l :=
  sumHits_nonneg_aux t l hw 0 le_rfl

theorem score_category_nonneg (t : List Char) (r : Rules)
    (hneg : r.negative = []) (hw : ∀ p ∈ r.strong ++ r.keywords, 0 ≤ p.2) :
    0 ≤ score_category t r := by
  unfold score_category
  rw [hneg]
  have hs : 0 ≤ sumHits t r.strong :=
    sumHits_nonneg t r.strong (fun p hp => hw p (List.mem_append_left _ hp))
  have hk : 0 ≤ sumHits t r.keywords :=
    sumHits_nonneg t r.keywords (fun p hp => hw p (List.mem_append_right _ hp))
  have hb : (0 : Int) ≤
      (if 3 ≤ posMatches t r then 20 else if posMatches t r = 2 then 10 else 0) := by
    split
    · omega
    · split <;> omega
  simp only [List.foldl_nil]
  omega

theorem category_rules_nonneg :
    ∀ p ∈ CATEGORY_RULES, p.1 ≠ "Sports" →
      p.2.negative = [] ∧ ∀ q ∈ p.2.strong ++ p.2.keywords, 0 ≤ q.2 := by
  decide

theorem pickBest_foldl_mem (rest : List (String × Int)) :
    ∀ acc : String × Int,
      rest.foldl (fun acc q => if acc.2 < q.2 then q else acc) acc = acc ∨
      rest.foldl (fun acc q => if acc.2 < q.2 then q else acc) acc ∈ rest := by
  induction rest with
  | nil => intro acc; exact Or.inl rfl
  | cons q rest ih =>
    intro acc
    rcases ih (if acc.2 < q.2 then q else acc) with h | h
    · rw [List.foldl_cons, h]
      by_cases hq : acc.2 < q.2
      · rw [if_pos hq]; exact Or.inr (List.mem_cons_self _ _)
      · rw [if_neg hq]; exact Or.inl rfl
    · rw [List.foldl_cons]
      exact Or.inr (List.mem_cons_of_mem _ h)

theorem pickBest_cons (p : String × Int) (rest : List (String × Int)) :
    pickBest (p :: rest) =
      rest.foldl (fun acc q => if acc.2 < q.2 then q else acc) p := rfl

theorem pickBest_mem {l : List (String × Int)} (h : l ≠ []) : pickBest l ∈ l := by
  match l with
  | p :: rest =>
    rw [pickBest_cons]
    rcases pickBest_foldl_mem rest p with h2 | h2
    · rw [h2]; exact List.mem_cons_self _ _
    · exact List.mem_cons_of_mem _ h2

theorem pickBest_foldl_ge_acc (rest : List (String × Int)) :
    ∀ acc : String × Int,
      acc.2 ≤ (rest.foldl (fun acc q => if acc.2 < q.2 then q else acc) acc).2 := by
  induction rest with
  | nil => intro acc; exact le_refl _
  | cons q rest ih =>
    intro acc
    rw [List.foldl_cons]
    refine le_trans ?_ (ih (if acc.2 < q.2 then q else acc))
    by_cases hq : acc.2 < q.2
    · rw [if_pos hq]; exact le_of_lt hq
    · rw [if_neg hq]

theorem pickBest_foldl_ge_mem (rest : List (String × Int)) (p : String × Int)
    (hp : p ∈ rest) :
    ∀ acc : String × Int,
      p.2 ≤ (rest.foldl (fun acc q => if acc.2 < q.2 then q else acc) acc).2 := by
  induction rest with
  | nil => cases hp
  | cons r rest ih =>
    intro acc
    rw [List.foldl_cons]
    rcases List.mem_cons.mp hp with h | h
    · subst h
      refine le_trans ?_ (pickBest_foldl_ge_acc rest _)
      by_cases hq : acc.2 < p.2
      · rw [if_pos hq]
      · rw [if_neg hq]; exact not_lt.mp hq
    · exact ih h _

theorem pickBest_ge {l : List (String × Int)} {p : String × Int} (hp : p ∈ l) :
    p.2 ≤ (pickBest l).2 := by
  match l with
  | q :: rest =>
    rw [pickBest_cons]
    rcases List.mem_cons.mp hp with h | h
    · subst h; exact pickBest_foldl_ge_acc rest p
    · exact pickBest_foldl_ge_mem rest p h q

theorem topicScores_sports_sentinel (t : List Char)
    (hanch : hasSportsAnchor t = false) :
    ∀ p ∈ topicScores t, p.1 = "Sports" → p.2 = -19980 := by
  intro p hp hps
  rcases List.mem_map.mp hp with ⟨q, hq, rfl⟩
  by_cases h : q.1 = "Sports"
  · rw [if_pos h]
    unfold guardSports
    rw [if_pos (by rw [hanch]; rfl)]
  · rw [if_neg h] at hps ⊢
    exact absurd hps h

set_option maxRecDepth 200000 in
/-- **C7**.  In the scoring fallback: whenever an article maps through no
declared category and its normalised text blob contains no sports anchor
(neither an anchor term nor a numeric score-like pattern), the Sports
score is forced to the large negative sentinel and the classifier never
returns "Sports"; in particular the text "el presidente anunció un
decreto sobre el partido de la coalición" is classified "Politics". -/
theorem C7_sports_guardrail :
    (∀ a : Article, topic_from_source_categories a = none →
      hasSportsAnchor (topicText a) = false → topic_label a ≠ "Sports") ∧
    SPORTS_ANCHORS.all (fun an => !containsSub (topicText artPartido) an.data) = true ∧
    hasScorePattern (topicText artPartido) = false ∧
    topic_label artPartido = "Politics" := by
  refine ⟨?_, by decide, by decide, by decide⟩
  intro a hcat hanch hlab
  unfold topic_label at hlab
  rw [hcat] at hlab
  by_cases htext : topicText a = []
  · rw [if_pos htext] at hlab
    exact absurd hlab (by decide)
  · rw [if_neg htext] at hlab
    by_cases h1 : (pickBest (topicScores (topicText a))).2 < MIN_SCORE
    · rw [if_pos h1] at hlab
      exact absurd hlab (by decide)
    · rw [if_neg h1] at hlab
      by_cases h2 : (pickBest (topicScores (topicText a))).2 -
          secondScore (topicScores (topicText a)) < MIN_MARGIN ∧
          (pickBest (topicScores (topicText a))).2 < STRONG_WIN_SCORE
      · rw [if_pos h2] at hlab
        exact absurd hlab (by decide)
      · rw [if_neg h2] at hlab
        have hnonempty : topicScores (topicText a) ≠ [] := by
          unfold topicScores
          intro hc
          rw [List.map_eq_nil_iff] at hc
          exact List.cons_ne_nil _ _ hc
        have hmem := pickBest_mem hnonempty
        have hval := topicScores_sports_sentinel (topicText a) hanch _ hmem hlab
        obtain ⟨r, tl, hsplit⟩ : ∃ r tl, CATEGORY_RULES = ("Politics", r) :: tl :=
          ⟨_, _, rfl⟩
        have hpmem : ("Politics", score_category (topicText a) r) ∈
            topicScores (topicText a) := by
          unfold topicScores
          rw [hsplit, List.map_cons]
          dsimp only
          rw [if_neg (by decide : ¬("Politics" = "Sports"))]
          exact List.mem_cons_self _ _
        have hnn : 0 ≤ score_category (topicText a) r := by
          have h := category_rules_nonneg ("Politics", r)
            (by rw [hsplit]; exact List.mem_cons_self _ _)
            (by intro hc; dsimp only at hc; exact absurd hc (by decide))
          exact score_category_nonneg _ _ h.1 h.2
        have hle := pickBest_ge hpmem
        rw [hval] at hle
        omega

set_option maxRecDepth 200000 in
/-- **C7** (witness): the guardrail theorem applied to the concrete
ambiguous-politics article, whose hypotheses hold by evaluation. -/
theorem C7_witness : topic_label artPartido ≠ "Sports" :=
  C7_sports_guardrail.1 artPartido (by decide) (by decide)

/-! ## Lemmas about the response cache -/

theorem getD_append_singleton {α : Type} (l : List α) (x d : α) :
    (l ++ [x]).getD l.length d = x := by
  induction l with
  | nil => rfl
  | cons a tl ih =>
    simp only [List.cons_append, List.length_cons, List.getD_cons_succ]
    exact ih

theorem entryOf_storeEntry (entries : List (String × NewsCacheEntry)) (k : String)
    (e : NewsCacheEntry) : entryOf (storeEntry entries k e) k = some e := by
  induction entries with
  | nil => simp [storeEntry, entryOf]
  | cons hd tl ih =>
    obtain ⟨k0, e0⟩ := hd
    by_cases hk : k0 = k
    · simp [storeEntry, entryOf, hk]
    · simp [storeEntry, entryOf, hk, ih]

theorem entryOf_mem {entries : List (String × NewsCacheEntry)} {k : String}
    {e : NewsCacheEntry} (h : entryOf entries k = some e) : (k, e) ∈ entries := by
  induction entries with
  | nil => simp [entryOf] at h
  | cons hd tl ih =>
    obtain ⟨k0, e0⟩ := hd
    by_cases hk : k0 = k
    · rw [entryOf, if_pos hk] at h
      refine List.mem_cons.mpr (Or.inl ?_)
      rw [← hk, ← Option.some.inj h]
    · rw [entryOf, if_neg hk] at h
      exact List.mem_cons_of_mem _ (ih h)

theorem keys_storeEntry (entries : List (String × NewsCacheEntry)) (k : String)
    (e : NewsCacheEntry) :
    (storeEntry entries k e).map Prod.fst =
      if k ∈ entries.map Prod.fst then entries.map Prod.fst
      else entries.map Prod.fst ++ [k] := by
  induction entries with
  | nil => simp [storeEntry]
  | cons hd tl ih =>
    obtain ⟨k0, e0⟩ := hd
    by_cases hk : k0 = k
    · subst hk
      simp [storeEntry]
    · simp only [storeEntry, if_neg hk, List.map_cons, ih, List.mem_cons]
      by_cases hmem : k ∈ tl.map Prod.fst
      · rw [if_pos hmem, if_pos (Or.inr hmem)]
      · rw [if_neg hmem, if_neg ?_, List.cons_append]
        rintro (h | h)
        · exact hk h.symm
        · exact hmem h

theorem nodup_keys_storeEntry {entries : List (String × NewsCacheEntry)}
    (k : String) (e : NewsCacheEntry) (h : (entries.map Prod.fst).Nodup) :
    ((storeEntry entries k e).map Prod.fst).Nodup := by
  rw [keys_storeEntry]
  by_cases hmem : k ∈ entries.map Prod.fst
  · rwa [if_pos hmem]
  · rw [if_neg hmem]
    exact List.Nodup.append h (List.nodup_singleton k) (by simpa using hmem)

theorem mem_storeEntry_nodup {entries : List (String × NewsCacheEntry)}
    {k : String} {e : NewsCacheEntry} {p : String × NewsCacheEntry}
    (hnd : (entries.map Prod.fst).Nodup) (hp : p ∈ storeEntry entries k e) :
    p = (k, e) ∨ (p ∈ entries ∧ p.1 ≠ k) := by
  induction entries with
  | nil =>
    simp only [storeEntry, List.mem_singleton] at hp
    exact Or.inl hp
  | cons hd tl ih =>
    obtain ⟨k0, e0⟩ := hd
    simp only [List.map_cons, List.nodup_cons] at hnd
    by_cases hk : k0 = k
    · subst hk
      rw [storeEntry, if_pos rfl] at hp
      rcases List.mem_cons.mp hp with h | h
      · exact Or.inl h
      · refine Or.inr ⟨List.mem_cons_of_mem _ h, ?_⟩
        intro hpk
        exact hnd.1 (hpk ▸ List.mem_map_of_mem Prod.fst h)
    · rw [storeEntry, if_neg hk] at hp
      rcases List.mem_cons.mp hp with h | h
      · refine Or.inr ⟨h ▸ List.mem_cons_self _ _, ?_⟩
        rw [h]
        exact hk
      · rcases ih hnd.2 h with h2 | h2
        · exact Or.inl h2
        · exact Or.inr ⟨List.mem_cons_of_mem _ h2.1, h2.2⟩

theorem entryOf_filter_key (entries : List (String × NewsCacheEntry)) (k : String)
    (e : NewsCacheEntry) (Q : String → Bool)
    (h : entryOf entries k = some e) (hQ : Q k = true) :
    entryOf (entries.filter (fun p => Q p.1)) k = some e := by
  induction entries with
  | nil => simp [entryOf] at h
  | cons hd tl ih =>
    obtain ⟨k0, e0⟩ := hd
    by_cases hk : k0 = k
    · rw [entryOf, if_pos hk] at h
      rw [List.filter_cons_of_pos (by simpa [hk] using hQ), entryOf, if_pos hk]
      exact h
    · rw [entryOf, if_neg hk] at h
      by_cases hQ0 : Q k0 = true
      · rw [List.filter_cons_of_pos (by simpa using hQ0), entryOf, if_neg hk]
        exact ih h
      · rw [List.filter_cons_of_neg (by simpa using hQ0)]
        exact ih h

theorem eq_of_keys_nodup {entries : List (String × NewsCacheEntry)}
    (hnd : (entries.map Prod.fst).Nodup) {p q : String × NewsCacheEntry}
    (hp : p ∈ entries) (hq : q ∈ entries) (hk : p.1 = q.1) : p = q := by
  induction entries with
  | nil => cases hp
  | cons hd tl ih =>
    simp only [List.map_cons, List.nodup_cons] at hnd
    rcases List.mem_cons.mp hp with h1 | h1 <;> rcases List.mem_cons.mp hq with h2 | h2
    · rw [h1, h2]
    · exfalso
      apply hnd.1
      rw [← h1, hk]
      exact List.mem_map_of_mem Prod.fst h2
    · exfalso
      apply hnd.1
      rw [← h2, ← hk]
      exact List.mem_map_of_mem Prod.fst h1
    · exact ih hnd.2 h1 h2

theorem key_not_in_victims (entries : List (String × NewsCacheEntry))
    (cnt : ℕ) (k : String) (e : NewsCacheEntry)
    (hnd : (entries.map Prod.fst).Nodup)
    (hke : (k, e) ∈ entries)
    (hmax : ∀ p ∈ entries, p ≠ (k, e) → p.2.ts < e.ts)
    (hcnt : cnt < entries.length) :
    k ∉ ((entries.insertionSort (fun p q => p.2.ts ≤ q.2.ts)).take cnt).map
      Prod.fst := by
  intro hkv
  haveI hTot : IsTotal (String × NewsCacheEntry) (fun p q => p.2.ts ≤ q.2.ts) :=
    ⟨fun a b => le_total _ _⟩
  haveI hTr : IsTrans (String × NewsCacheEntry) (fun p q => p.2.ts ≤ q.2.ts) :=
    ⟨fun a b c hab hbc => le_trans hab hbc⟩
  have hperm : List.Perm (entries.insertionSort (fun p q => p.2.ts ≤ q.2.ts))
      entries :=
    List.perm_insertionSort _ entries
  rcases List.mem_map.mp hkv with ⟨p, hp, hpk⟩
  have hpe : p ∈ entries := hperm.mem_iff.mp (List.mem_of_mem_take hp)
  have hpke : p = (k, e) := eq_of_keys_nodup hnd hpe hke hpk
  have hlen : cnt < (entries.insertionSort (fun p q => p.2.ts ≤ q.2.ts)).length := by
    rw [hperm.length_eq]
    exact hcnt
  have hdrop :
      0 < ((entries.insertionSort (fun p q => p.2.ts ≤ q.2.ts)).drop cnt).length := by
    rw [List.length_drop]
    omega
  obtain ⟨q, hq⟩ := List.exists_mem_of_length_pos hdrop
  have hqe : q ∈ entries := hperm.mem_iff.mp (List.mem_of_mem_drop hq)
  have hsorted : List.Sorted (fun p q : String × NewsCacheEntry => p.2.ts ≤ q.2.ts)
      (entries.insertionSort (fun p q => p.2.ts ≤ q.2.ts)) :=
    List.sorted_insertionSort _ entries
  have hrel : p.2.ts ≤ q.2.ts := hsorted.rel_of_mem_take_of_mem_drop hp hq
  rcases eq_or_ne q (k, e) with hq2 | hq2
  · have hnodup : entries.Nodup := hnd.of_map
    have hrnodup : (entries.insertionSort (fun p q => p.2.ts ≤ q.2.ts)).Nodup :=
      hperm.nodup_iff.mpr hnodup
    exact List.disjoint_take_drop hrnodup (le_refl cnt) (hpke ▸ hp) (hq2 ▸ hq)
  · have hlt := hmax q hqe hq2
    rw [hpke] at hrel
    exact absurd hrel (not_le.mpr hlt)

theorem entryOf_evictOld (entries : List (String × NewsCacheEntry))
    (maxKeys : Int) (k : String) (e : NewsCacheEntry)
    (hnd : (entries.map Prod.fst).Nodup)
    (hget : entryOf entries k = some e)
    (hmax : ∀ p ∈ entries, p ≠ (k, e) → p.2.ts < e.ts) :
    entryOf (evictOld entries maxKeys) k = some e := by
  unfold evictOld
  split
  case isFalse => exact hget
  case isTrue hcond =>
    dsimp only
    refine entryOf_filter_key entries k e
      (fun s => decide (s ∉ List.map Prod.fst (List.take
        (max 1 ((entries.length : Int) - maxKeys)).toNat
        (List.insertionSort (fun p q => p.2.ts ≤ q.2.ts) entries)))) hget ?_
    simp only [decide_eq_true_eq]
    refine key_not_in_victims entries _ k e hnd (entryOf_mem hget) hmax ?_
    have h1 : max (1 : Int) ((entries.length : Int) - maxKeys) =
        (entries.length : Int) - maxKeys :=
      max_eq_right (by omega)
    rw [h1]
    omega

/-- **C5**.  Response-cache round trip: after `set(k, v)` at time `now`
(with caching enabled and a strictly monotone clock), a `get(k)` at time
`now2` whose computed age is within the TTL returns a *fresh copy* of the
payload — an address different from `v`'s (so mutation of either object
is invisible through the other) holding a structurally equal value — even
when the insert triggers the capacity eviction pass. -/
theorem C5_cache_roundtrip {V : Type} [Inhabited V] (st : NewsCacheState V)
    (k : String) (vaddr : ℕ) (now now2 : ℚ) (ttl maxKeys : Int)
    (hnd : (st.entries.map Prod.fst).Nodup)
    (hts : ∀ p ∈ st.entries, p.2.ts < now)
    (hv : vaddr < st.heap.length)
    (httl : 0 < ttl)
    (hage : cacheAge now2 now ≤ ttl) :
    ∃ a : ℕ,
      (news_cache_get ttl (news_cache_set ttl maxKeys st k vaddr now) k now2).1 =
        some (a, cacheAge now2 now) ∧
      a ≠ vaddr ∧
      (news_cache_get ttl (news_cache_set ttl maxKeys st k vaddr now)
          k now2).2.heap.getD a default =
        st.heap.getD vaddr default := by
  have httl' : ¬ ttl ≤ 0 := not_le.mpr httl
  have hset : news_cache_set ttl maxKeys st k vaddr now =
      ⟨st.heap ++ [st.heap.getD vaddr default],
        evictOld (storeEntry st.entries k ⟨now, st.heap.length⟩) maxKeys⟩ := by
    unfold news_cache_set deepcopy
    rw [if_neg httl']
  have hget : entryOf
      (evictOld (storeEntry st.entries k ⟨now, st.heap.length⟩) maxKeys) k =
      some ⟨now, st.heap.length⟩ := by
    apply entryOf_evictOld
    · exact nodup_keys_storeEntry _ _ hnd
    · exact entryOf_storeEntry _ _ _
    · intro p hp hne
      rcases mem_storeEntry_nodup hnd hp with h | h
      · exact absurd h hne
      · exact hts p h.1
  refine ⟨(st.heap ++ [st.heap.getD vaddr default]).length, ?_, ?_, ?_⟩
  · rw [hset]
    unfold news_cache_get
    rw [if_neg httl']
    dsimp only
    rw [hget]
    dsimp only
    rw [if_neg (not_lt.mpr hage)]
    rfl
  · rw [List.length_append]
    simp only [List.length_singleton]
    omega
  · rw [hset]
    unfold news_cache_get
    rw [if_neg httl']
    dsimp only
    rw [hget]
    dsimp only
    rw [if_neg (not_lt.mpr hage)]
    dsimp only [deepcopy]
    rw [getD_append_singleton]
    exact getD_append_singleton st.heap _ _

/-- **C5** (witness): the round trip through a one-payload heap with an
empty cache, TTL 120 and capacity 200, set and read at time 0. -/
theorem C5_witness :
    ∃ a : ℕ,
      (news_cache_get 120 (news_cache_set 120 200
          (⟨[(42 : ℕ)], []⟩ : NewsCacheState ℕ) "k" 0 0) "k" 0).1 =
        some (a, cacheAge 0 0) ∧
      a ≠ 0 ∧
      (news_cache_get 120 (news_cache_set 120 200
          (⟨[(42 : ℕ)], []⟩ : NewsCacheState ℕ) "k" 0 0) "k" 0).2.heap.getD a
          default =
        (⟨[(42 : ℕ)], []⟩ : NewsCacheState ℕ).heap.getD 0 default :=
  C5_cache_roundtrip ⟨[42], []⟩ "k" 0 0 0 120 200 (by simp) (by simp)
    (by decide) (by decide) (by norm_num [cacheAge])

end NewsAgg
